import Mathlib

/-!
Verification of the attention library of the DCUnet-with-Transformer speech
enhancement repository (`model/attention.py`), against its specification.

Tensors are shallowly embedded as functions over `Fin`-indexed axes with
real-valued entries; PyTorch shape semantics (`view` with an inferred `-1`
dimension, `permute`, broadcasting, `Conv2d` output-size arithmetic) are
embedded as a shape calculus over natural numbers with `Option` capturing
runtime shape errors.  Forward passes are modelled in evaluation mode
(dropout is the identity) except where training-mode behaviour is the point
(batch normalisation running statistics).
-/

namespace AttentionLib

/-! ## Real-valued activation primitives

`F.sigmoid`, `F.softmax` and `torch.exp` work on IEEE floats in the source;
here they are modelled over `ℝ`.  Scores that the source sets to `-np.inf`
via `masked_fill_` are modelled in `WithBot ℝ`, with `expBot ⊥ = 0`
mirroring `exp(-inf) = 0`. -/

/-- `exp` extended to `WithBot ℝ` with `exp(-∞) = 0`, as floating point does. -/
noncomputable def expBot : WithBot ℝ → ℝ
  | ⊥ => 0
  | (x : ℝ) => Real.exp x

/-- Logistic sigmoid `1 / (1 + exp(-x))`, the semantics of `F.sigmoid`. -/
noncomputable def sigmoid (x : ℝ) : ℝ := 1 / (1 + Real.exp (-x))

/-- Rectified linear unit, the semantics of `nn.ReLU`. -/
noncomputable def relu (x : ℝ) : ℝ := max x 0

/-- Row softmax over possibly `-∞` scores: `F.softmax(score, -1)` applied to a
row that `masked_fill_` may have filled with `-np.inf`. -/
noncomputable def softmaxRow {n : ℕ} (s : Fin n → WithBot ℝ) (j : Fin n) : ℝ :=
  expBot (s j) / ∑ k, expBot (s k)

/-! ## ScaledDotProductAttention (attention.py lines 18–37)

`forward(query, key, value, mask)` with
`score = torch.bmm(query, key.transpose(1, 2)) / self.sqrt_dim`,
`score.masked_fill_(mask, -np.inf)` when a mask is given,
`attn = F.softmax(score, -1)`, `context = torch.bmm(attn, value)`.
Dropout (`self.dropout`) is modelled in evaluation mode, i.e. the identity,
matching the "dropout inactive" reading of the claims. -/

/-- `torch.bmm(query, key.transpose(1, 2)) / self.sqrt_dim` with
`self.sqrt_dim = np.sqrt(dim)`. -/
noncomputable def sdpaScore {B Lq Lk D : ℕ} (dim : ℕ)
    (Q : Fin B → Fin Lq → Fin D → ℝ) (K : Fin B → Fin Lk → Fin D → ℝ)
    (b : Fin B) (i : Fin Lq) (j : Fin Lk) : ℝ :=
  (∑ d, Q b i d * K b j d) / Real.sqrt dim

/-- `score.masked_fill_(mask, -np.inf)` when a mask is supplied; the score is
left untouched when `mask is None`. -/
noncomputable def sdpaMaskedScore {B Lq Lk D : ℕ} (dim : ℕ)
    (Q : Fin B → Fin Lq → Fin D → ℝ) (K : Fin B → Fin Lk → Fin D → ℝ)
    (mask : Option (Fin B → Fin Lq → Fin Lk → Bool))
    (b : Fin B) (i : Fin Lq) (j : Fin Lk) : WithBot ℝ :=
  match mask with
  | none => (sdpaScore dim Q K b i j : ℝ)
  | some m => if m b i j then ⊥ else (sdpaScore dim Q K b i j : ℝ)

/-- `attn = F.softmax(score, -1)` (dropout inactive). -/
noncomputable def sdpaAttn {B Lq Lk D : ℕ} (dim : ℕ)
    (Q : Fin B → Fin Lq → Fin D → ℝ) (K : Fin B → Fin Lk → Fin D → ℝ)
    (mask : Option (Fin B → Fin Lq → Fin Lk → Bool))
    (b : Fin B) (i : Fin Lq) : Fin Lk → ℝ :=
  softmaxRow (fun j => sdpaMaskedScore dim Q K mask b i j)

/-- `context = torch.bmm(attn, value)`. -/
noncomputable def sdpaContext {B Lq Lk D Dv : ℕ} (dim : ℕ)
    (Q : Fin B → Fin Lq → Fin D → ℝ) (K : Fin B → Fin Lk → Fin D → ℝ)
    (V : Fin B → Fin Lk → Fin Dv → ℝ)
    (mask : Option (Fin B → Fin Lq → Fin Lk → Bool))
    (b : Fin B) (i : Fin Lq) (e : Fin Dv) : ℝ :=
  ∑ j, sdpaAttn dim Q K mask b i j * V b j e

/-! ## Shape calculus

PyTorch shape semantics for the reshaping done by the attention blocks:
`view` with one inferred `-1` dimension, `Conv2d`/pooling output sizes, and
broadcasting of elementwise products.  `none` models a runtime shape error. -/

/-- The dimension `view` infers for `-1`: the number of elements divided by
the product of the known dimensions; errors unless that product is nonzero
and divides the element count. -/
def viewInfer (numel known : ℕ) : Option ℕ :=
  if known ≠ 0 ∧ numel % known = 0 then some (numel / known) else none

/-- Output extent of a `Conv2d`/pooling axis of size `n` with kernel `k`,
padding `p`, stride `s` (dilation 1): `(n + 2p - k) / s + 1`, defined only
when the padded input covers the kernel. -/
def conv2dOut (n k p s : ℕ) : Option ℕ :=
  if k ≠ 0 ∧ s ≠ 0 ∧ k ≤ n + 2 * p then some ((n + 2 * p - k) / s + 1) else none

/-- Broadcast of one axis pair: equal extents, or one of them 1. -/
def broadcastDim (a b : ℕ) : Option ℕ :=
  if a = b then some a else if a = 1 then some b else if b = 1 then some a else none

/-- Broadcast shape of an elementwise product of two rank-4 tensors. -/
def mulShape4 (x y : ℕ × ℕ × ℕ × ℕ) : Option (ℕ × ℕ × ℕ × ℕ) := do
  let a ← broadcastDim x.1 y.1
  let b ← broadcastDim x.2.1 y.2.1
  let c ← broadcastDim x.2.2.1 y.2.2.1
  let d ← broadcastDim x.2.2.2 y.2.2.2
  pure (a, b, c, d)

/-! ## MultiHeadAttention shapes (attention.py lines 60–83)

`forward(q, k, v)` with `q : (B, Lq, d_model)`, `k, v : (B, Lk, d_model)`:
each projection is `Linear(d_model, attn_dim * n_heads)` followed by
`.view(batch, -1, n_heads, attn_dim)`, `.permute(2, 0, 1, 3)` and
`.view(batch * n_heads, -1, attn_dim)`; after `scaled_dot_attn` the context
is re-viewed to `(n_heads, batch, -1, attn_dim)`, permuted to
`(batch, len, n_heads, attn_dim)` and merged to
`(batch, -1, n_heads * attn_dim)`. -/

/-- Shape pipeline of `MultiHeadAttention.forward`: returns the shapes of
`(context, attn)` for inputs `q : (B, Lq, d)`, `k, v : (B, Lk, d)`. -/
def mhaShapes (B Lq Lk d h : ℕ) : Option ((ℕ × ℕ × ℕ) × (ℕ × ℕ × ℕ)) := do
  let ad := d / h          -- self.attn_dim = int(d_model / n_heads)
  let proj := ad * h       -- Linear output width attn_dim * n_heads
  -- line 66: Linear_Q(q).view(batch_size, -1, n_heads, attn_dim)
  let q1 ← viewInfer (B * Lq * proj) (B * h * ad)
  -- line 71: permute(2,0,1,3) → (h, B, q1, ad); view(batch_size*n_heads, -1, attn_dim)
  let q2 ← viewInfer (h * B * q1 * ad) (B * h * ad)
  let k1 ← viewInfer (B * Lk * proj) (B * h * ad)
  let k2 ← viewInfer (h * B * k1 * ad) (B * h * ad)
  let v1 ← viewInfer (B * Lk * proj) (B * h * ad)
  let v2 ← viewInfer (h * B * v1 * ad) (B * h * ad)
  -- scaled_dot_attn: score = bmm(query, key.transpose(1,2)) : (B*h, q2, k2),
  -- attn likewise; context = bmm(attn, value) requires k2 = v2
  if k2 = v2 then
    -- context : (B*h, q2, ad); line 80: context.view(n_heads, batch_size, -1, attn_dim)
    let c1 ← viewInfer (B * h * q2 * ad) (h * B * ad)
    -- line 81: permute(1,2,0,3) → (B, c1, h, ad); view(batch_size, -1, n_heads*attn_dim)
    let c2 ← viewInfer (B * c1 * h * ad) (B * (h * ad))
    pure ((B, c2, h * ad), (B * h, q2, k2))
  else none

/-! ## Gate/self-attention shapes (attention.py lines 89–254) -/

/-- `ChannelPool.forward` (line 109): `cat(max over dim 1, mean over dim 1)`,
giving `(B, 2, H, W)`; reducing an empty channel axis is a runtime error. -/
def channelPoolShape (B C H W : ℕ) : Option (ℕ × ℕ × ℕ × ℕ) :=
  if C ≠ 0 then some (B, 2, H, W) else none

/-- Shape pipeline of `SpatialGate.forward` (lines 119–124): channel pool,
`BasicConv(2, 1, 7, stride=1, padding=3)` (BatchNorm preserves shape),
sigmoid, then the broadcast product `x * scale`. -/
def spatialGateShape (B C H W : ℕ) : Option (ℕ × ℕ × ℕ × ℕ) := do
  let p ← channelPoolShape B C H W
  if p.2.1 = 2 then        -- Conv2d(2, 1, …) consumes exactly 2 channels
    let h2 ← conv2dOut p.2.2.1 7 3 1
    let w2 ← conv2dOut p.2.2.2 7 3 1
    -- scale = F.sigmoid(x_out) : (B, 1, h2, w2); return x * scale
    mulShape4 (B, C, H, W) (p.1, 1, h2, w2)
  else none

/-- Flattened width a pooling kind feeds to the `ChannelGate` MLP: every
recognised kind (`avg`, `max`, `lp`, `lse`) reduces the spatial extent to a
single cell, so the `Flatten` output width is `C`; unknown kinds and empty
spatial extents are errors. -/
def poolFlatWidth (pt : String) (C H W : ℕ) : Option ℕ :=
  if pt = "avg" ∨ pt = "max" ∨ pt = "lp" ∨ pt = "lse" then
    if H ≠ 0 ∧ W ≠ 0 then some C else none
  else none

/-- Shape pipeline of `ChannelGate.forward` (lines 146–178) for gate width
`g`: every configured pooling kind must produce a flattened vector of width
`g` (the input width of `Linear(gate_channels, gate_channels //
reduction_ratio)`), the raw signals are summed, and
`F.sigmoid(...).unsqueeze(2).unsqueeze(3).expand_as(x)` rescales `x`; an
empty pool list leaves `channel_att_sum` as `None`, a runtime error. -/
def channelGateShape (g : ℕ) (pools : List String) (B C H W : ℕ) :
    Option (ℕ × ℕ × ℕ × ℕ) :=
  if pools ≠ [] ∧ pools.all (fun pt => poolFlatWidth pt C H W == some g) then
    -- mlp: Flatten (B, g) → Linear (B, g / r) → ReLU → Linear (B, g);
    -- scale (B, g, 1, 1) expands over (B, C, H, W) since g = C here
    some (B, C, H, W)
  else none

/-- Shape pipeline of `CCBAM.forward` (lines 199–213), `no_spatial = False`:
each of `x[..., 0]`, `x[..., 1]` of the `(B, C, H, W, 2)` input runs through
its own ChannelGate then SpatialGate, and `torch.stack(..., dim=-1)`
reattaches the trailing axis of size 2. -/
def ccbamShape (g : ℕ) (pools : List String) (B C H W : ℕ) :
    Option (ℕ × ℕ × ℕ × ℕ × ℕ) := do
  let p ← channelGateShape g pools B C H W
  let q ← spatialGateShape p.1 p.2.1 p.2.2.1 p.2.2.2
  pure (q.1, q.2.1, q.2.2.1, q.2.2.2, 2)

/-- Shape pipeline of `Self_Attn.forward` (lines 233–254) for a block built
with `in_channels = c0`: three 1×1 convolutions, `view(batch, -1,
freq*time)` flattenings, two `bmm`s, a `view` back to `(B, C, H, W)` and the
residual blend `gamma * out + x`. -/
def selfAttnShape (c0 B C H W : ℕ) : Option (ℕ × ℕ × ℕ × ℕ) := do
  if C = c0 then           -- Conv2d(in_channels=c0, …) consumes c0 channels
    let hc ← conv2dOut H 1 0 1
    let wc ← conv2dOut W 1 0 1
    -- Q = conv_q(x).view(batch, -1, freq*time) (then permute(0, 2, 1))
    let qc ← viewInfer (B * (c0 / 8) * hc * wc) (B * (H * W))
    let kc ← viewInfer (B * (c0 / 8) * hc * wc) (B * (H * W))
    let vc ← viewInfer (B * c0 * hc * wc) (B * (H * W))
    -- energy = bmm(Q : (B, H*W, qc), K : (B, kc, H*W))
    if qc = kc then
      -- attn : (B, H*W, H*W); out = bmm(V : (B, vc, H*W), attnᵀ) : (B, vc, H*W)
      -- out.view(batch, channel, freq, time) must preserve the element count
      if B * vc * (H * W) = B * C * H * W then
        -- out = self.gamma * out + x (scalar gamma broadcasts; shapes agree)
        some (B, C, H, W)
      else none
    else none
  else none

/-! ## Construction-time behaviour (attention.py lines 42–58 and 134–144) -/

/-- Errors a constructor can raise: the `assert d_model % n_heads == 0`
failure (`AssertionError`, the spec's ConfigError) and Python's
`ZeroDivisionError` from `%` or `//` with divisor 0. -/
inductive PyError where
  | configError
  | zeroDivision
deriving DecidableEq

/-- `MultiHeadAttention.__init__(d_model, n_heads)`: evaluates
`d_model % n_heads` (ZeroDivisionError when `n_heads = 0`), asserts the
remainder is 0, then sets `attn_dim = int(d_model / n_heads)`.  Returns
`(attn_dim, n_heads)` on success. -/
def mhaInit (d h : ℕ) : Except PyError (ℕ × ℕ) :=
  if h = 0 then .error .zeroDivision
  else if d % h = 0 then .ok (d / h, h)
  else .error .configError

/-- `ChannelGate.__init__(gate_channels, reduction_ratio)`: builds
`nn.Linear(gate_channels, gate_channels // reduction_ratio)` with the
floor-truncated bottleneck width — no divisibility check, no assertion.
Returns `(gate_channels, bottleneck width)`. -/
def channelGateInit (g r : ℕ) : Except PyError (ℕ × ℕ) :=
  if r = 0 then .error .zeroDivision
  else .ok (g, g / r)

/-! ## ChannelGate values (attention.py lines 134–185)

`forward` loops over `self.pool_types`; each recognised kind pools the
spatial extent, feeds the result through the shared bottleneck MLP
(`Flatten`, `Linear(g, g // r)`, `ReLU`, `Linear(g // r, g)`), and the raw
signals accumulate in `channel_att_sum` (initially `None`).  The gate is
`F.sigmoid(channel_att_sum)` expanded over the spatial extent and
multiplied into `x`. -/

/-- Weights and biases of `ChannelGate.mlp` for `gate_channels = C`,
`reduction_ratio = r` (bottleneck width the truncated `C / r`). -/
structure ChannelGateParams (C r : ℕ) where
  w1 : Fin (C / r) → Fin C → ℝ
  b1 : Fin (C / r) → ℝ
  w2 : Fin C → Fin (C / r) → ℝ
  b2 : Fin C → ℝ

/-- The bottleneck MLP applied to one pooled channel vector. -/
noncomputable def cgMlp {C r : ℕ} (p : ChannelGateParams C r) (v : Fin C → ℝ)
    (c : Fin C) : ℝ :=
  p.b2 c + ∑ m, p.w2 c m * relu (p.b1 m + ∑ i, p.w1 m i * v i)

/-- Maximum of a real-valued function over a nonempty spatial extent. -/
noncomputable def spatialMax {H W : ℕ} [NeZero H] [NeZero W]
    (f : Fin H → Fin W → ℝ) : ℝ :=
  Finset.univ.sup' Finset.univ_nonempty (fun q : Fin H × Fin W => f q.1 q.2)

/-- `F.avg_pool2d(x, (H, W), stride=(H, W))`: the spatial mean. -/
noncomputable def avgPool2dFull {B C H W : ℕ}
    (x : Fin B → Fin C → Fin H → Fin W → ℝ) (b : Fin B) (c : Fin C) : ℝ :=
  (∑ h, ∑ w, x b c h w) / (H * W : ℕ)

/-- `F.max_pool2d(x, (H, W), stride=(H, W))`: the spatial maximum. -/
noncomputable def maxPool2dFull {B C H W : ℕ} [NeZero H] [NeZero W]
    (x : Fin B → Fin C → Fin H → Fin W → ℝ) (b : Fin B) (c : Fin C) : ℝ :=
  spatialMax (x b c)

/-- `F.lp_pool2d(x, 2, (H, W), stride=(H, W))`: √(Σ x²) over the window. -/
noncomputable def lpPool2dFull {B C H W : ℕ}
    (x : Fin B → Fin C → Fin H → Fin W → ℝ) (b : Fin B) (c : Fin C) : ℝ :=
  Real.sqrt (∑ h, ∑ w, (x b c h w) ^ 2)

/-- `logsumexp_2d` (lines 181–185): flatten the spatial extent, take the max
`s`, return `s + log(Σ exp(x - s))`. -/
noncomputable def logsumexp_2d {B C H W : ℕ} [NeZero H] [NeZero W]
    (x : Fin B → Fin C → Fin H → Fin W → ℝ) (b : Fin B) (c : Fin C) : ℝ :=
  spatialMax (x b c) +
    Real.log (∑ h, ∑ w, Real.exp (x b c h w - spatialMax (x b c)))

/-- One loop iteration's `channel_att_raw = self.mlp(pool)` for a
recognised pooling kind; `none` for a kind matching no branch (in which
case the source leaves `channel_att_raw` unassigned). -/
noncomputable def channelAttRaw {B C H W r : ℕ} [NeZero H] [NeZero W]
    (pt : String) (p : ChannelGateParams C r)
    (x : Fin B → Fin C → Fin H → Fin W → ℝ) :
    Option (Fin B → Fin C → ℝ) :=
  if pt = "avg" then some (fun b => cgMlp p (avgPool2dFull x b))
  else if pt = "max" then some (fun b => cgMlp p (maxPool2dFull x b))
  else if pt = "lp" then some (fun b => cgMlp p (lpPool2dFull x b))
  else if pt = "lse" then some (fun b => cgMlp p (logsumexp_2d x b))
  else none

/-- The `for pool_type in self.pool_types` loop (lines 149–173), carrying
the last assigned `channel_att_raw` and the accumulator `channel_att_sum`.
An unrecognised kind leaves `channel_att_raw` at its previous value; if no
previous value exists the source raises `NameError`, modelled by the outer
`none`. -/
noncomputable def channelGateLoop {B C H W r : ℕ} [NeZero H] [NeZero W]
    (p : ChannelGateParams C r) (x : Fin B → Fin C → Fin H → Fin W → ℝ) :
    List String → Option (Fin B → Fin C → ℝ) → Option (Fin B → Fin C → ℝ) →
    Option (Option (Fin B → Fin C → ℝ))
  | [], _, acc => some acc
  | pt :: rest, lastRaw, acc =>
    match (channelAttRaw pt p x).or lastRaw with
    | none => none
    | some raw =>
      channelGateLoop p x rest (some raw)
        (some (match acc with
               | none => raw
               | some s => fun b c => s b c + raw b c))

/-- `ChannelGate.forward` (lines 146–178): run the pooling loop, then
`x * F.sigmoid(channel_att_sum).unsqueeze(2).unsqueeze(3).expand_as(x)`;
`none` models the `NameError`/`TypeError` raised when the loop never
assigns a raw signal (unknown first kind, or an empty pool list leaving
`channel_att_sum` as `None` inside `F.sigmoid`). -/
noncomputable def channelGateForward {B C H W r : ℕ} [NeZero H] [NeZero W]
    (pools : List String) (p : ChannelGateParams C r)
    (x : Fin B → Fin C → Fin H → Fin W → ℝ) :
    Option (Fin B → Fin C → Fin H → Fin W → ℝ) :=
  match channelGateLoop p x pools none none with
  | some (some s) => some (fun b c h w => x b c h w * sigmoid (s b c))
  | _ => none

/-- The channel gate as the specification words it: one raw signal per
configured pooling kind through the shared MLP, raw signals summed
elementwise, sigmoid, then the gate multiplied into the input (spec §4.3).
Unrecognised kinds contribute zero; the comparison theorem only ever
instantiates recognised ones. -/
noncomputable def channelGateSpec {B C H W r : ℕ} [NeZero H] [NeZero W]
    (pools : List String) (p : ChannelGateParams C r)
    (x : Fin B → Fin C → Fin H → Fin W → ℝ) :
    Fin B → Fin C → Fin H → Fin W → ℝ :=
  fun b c h w =>
    x b c h w *
      sigmoid ((pools.map
        (fun pt => ((channelAttRaw pt p x).getD (fun _ _ => 0)) b c)).sum)

/-- The pooling kinds `ChannelGate.forward` recognises. -/
def PoolKindValid (pt : String) : Prop :=
  pt = "avg" ∨ pt = "max" ∨ pt = "lp" ∨ pt = "lse"

instance (pt : String) : Decidable (PoolKindValid pt) := by
  unfold PoolKindValid; infer_instance

/-! ## BatchNorm2d, BasicConv, SpatialGate values (attention.py lines 89–124)

`BasicConv` owns a `BatchNorm2d(out_planes, eps=1e-5, momentum=0.01)`.
Batch normalisation is the one stateful layer: in training mode it
normalises with per-batch statistics and moves its running mean/variance
buffers towards them (`running ← (1 - momentum)·running + momentum·batch`,
the variance update using the unbiased estimator); in evaluation mode it
normalises with the stored running statistics and writes nothing.  Forward
passes are therefore modelled as explicit state transformers. -/

/-- Affine parameters of `BatchNorm2d`. -/
structure BatchNorm2dParams (C : ℕ) where
  gamma : Fin C → ℝ
  beta : Fin C → ℝ

/-- Block-owned running-statistics buffers of `BatchNorm2d`. -/
structure BatchNorm2dState (C : ℕ) where
  mean : Fin C → ℝ
  var : Fin C → ℝ

/-- `BatchNorm2d` forward with `eps = 1e-5`, `momentum = 0.01`, returning
the output and the (possibly updated) running statistics. -/
noncomputable def batchNorm2d {B C H W : ℕ} (training : Bool)
    (p : BatchNorm2dParams C) (st : BatchNorm2dState C)
    (x : Fin B → Fin C → Fin H → Fin W → ℝ) :
    (Fin B → Fin C → Fin H → Fin W → ℝ) × BatchNorm2dState C :=
  if training then
    let n : ℝ := (B * H * W : ℕ)
    let mu : Fin C → ℝ := fun c => (∑ b, ∑ h, ∑ w, x b c h w) / n
    let vB : Fin C → ℝ := fun c => (∑ b, ∑ h, ∑ w, (x b c h w - mu c) ^ 2) / n
    let vU : Fin C → ℝ :=
      fun c => (∑ b, ∑ h, ∑ w, (x b c h w - mu c) ^ 2) / (n - 1)
    (fun b c h w =>
        p.gamma c * ((x b c h w - mu c) / Real.sqrt (vB c + 1e-5)) + p.beta c,
     ⟨fun c => (1 - 0.01) * st.mean c + 0.01 * mu c,
      fun c => (1 - 0.01) * st.var c + 0.01 * vU c⟩)
  else
    (fun b c h w =>
        p.gamma c * ((x b c h w - st.mean c) / Real.sqrt (st.var c + 1e-5)) +
          p.beta c,
     st)

/-- Zero padding: read `x` at integer coordinates, 0 outside the extent. -/
noncomputable def pad2 {H W : ℕ} (x : Fin H → Fin W → ℝ) (i j : ℤ) : ℝ :=
  if hb : 0 ≤ i ∧ i < (H : ℤ) ∧ 0 ≤ j ∧ j < (W : ℤ) then
    x ⟨i.toNat, by omega⟩ ⟨j.toNat, by omega⟩
  else 0

/-- The `Conv2d(2, 1, 7, stride=1, padding=3, bias=False)` inside
`SpatialGate`'s `BasicConv`: same-size output by the padding arithmetic of
the shape calculus. -/
noncomputable def conv2dSame7 {B H W : ℕ}
    (w : Fin 1 → Fin 2 → Fin 7 → Fin 7 → ℝ)
    (x : Fin B → Fin 2 → Fin H → Fin W → ℝ) :
    Fin B → Fin 1 → Fin H → Fin W → ℝ :=
  fun b o h v => ∑ c, ∑ i, ∑ j,
    w o c i j *
      pad2 (x b c) (((h : ℕ) : ℤ) + (i : ℕ) - 3) (((v : ℕ) : ℤ) + (j : ℕ) - 3)

/-- `ChannelPool.forward` (line 109): channel 0 the max over channels,
channel 1 the mean over channels. -/
noncomputable def channelPool {B C H W : ℕ} [NeZero C]
    (x : Fin B → Fin C → Fin H → Fin W → ℝ) :
    Fin B → Fin 2 → Fin H → Fin W → ℝ :=
  fun b ch h w =>
    if ch = 0 then Finset.univ.sup' Finset.univ_nonempty (fun c => x b c h w)
    else (∑ c, x b c h w) / (C : ℕ)

/-- Parameters of `SpatialGate`: the 7×7 convolution kernel and the
BatchNorm affine parameters of its `BasicConv`. -/
structure SpatialGateParams where
  w : Fin 1 → Fin 2 → Fin 7 → Fin 7 → ℝ
  bn : BatchNorm2dParams 1

/-- `SpatialGate.forward` (lines 119–124) as a state transformer over its
BatchNorm buffers: channel pool, `BasicConv` (conv, BatchNorm, no ReLU),
sigmoid, multiply into the input. -/
noncomputable def spatialGateStep {B C H W : ℕ} [NeZero C] (training : Bool)
    (p : SpatialGateParams) (st : BatchNorm2dState 1)
    (x : Fin B → Fin C → Fin H → Fin W → ℝ) :
    (Fin B → Fin C → Fin H → Fin W → ℝ) × BatchNorm2dState 1 :=
  let r := batchNorm2d training p.bn st (conv2dSame7 p.w (channelPool x))
  (fun b c h w => x b c h w * sigmoid (r.1 b 0 h w), r.2)

/-! ## CCBAM values (attention.py lines 188–213) -/

/-- Parameters of `CCBAM`: independently parameterised channel and spatial
gates for the real and imaginary planes. -/
structure CCBAMParams (C r : ℕ) where
  cgReal : ChannelGateParams C r
  cgImag : ChannelGateParams C r
  sgReal : SpatialGateParams
  sgImag : SpatialGateParams

/-- Block-owned state of `CCBAM`: the BatchNorm buffers of the two spatial
gates. -/
structure CCBAMState where
  bnReal : BatchNorm2dState 1
  bnImag : BatchNorm2dState 1

/-- `CCBAM.forward` (lines 199–213): split `x[..., 0]` / `x[..., 1]`, gate
each plane through its own ChannelGate then (unless `no_spatial`) its own
SpatialGate, and `torch.stack([real_out, imag_out], dim=-1)`. -/
noncomputable def ccbamForward {B C H W r : ℕ} [NeZero C] [NeZero H]
    [NeZero W] (training noSpatial : Bool) (pools : List String)
    (p : CCBAMParams C r) (st : CCBAMState)
    (x : Fin B → Fin C → Fin H → Fin W → Fin 2 → ℝ) :
    Option ((Fin B → Fin C → Fin H → Fin W → Fin 2 → ℝ) × CCBAMState) :=
  let real := fun b c h w => x b c h w 0
  let imag := fun b c h w => x b c h w 1
  match channelGateForward pools p.cgReal real,
        channelGateForward pools p.cgImag imag with
  | some realCg, some imagCg =>
    let realSg := if noSpatial then (realCg, st.bnReal)
                  else spatialGateStep training p.sgReal st.bnReal realCg
    let imagSg := if noSpatial then (imagCg, st.bnImag)
                  else spatialGateStep training p.sgImag st.bnImag imagCg
    some (fun b c h w k => if k = 0 then realSg.1 b c h w else imagSg.1 b c h w,
          ⟨realSg.2, imagSg.2⟩)
  | _, _ => none

/-- The imaginary output plane of a CCBAM result. -/
noncomputable def imagPlane {B C H W : ℕ}
    (o : (Fin B → Fin C → Fin H → Fin W → Fin 2 → ℝ) × CCBAMState) :
    Fin B → Fin C → Fin H → Fin W → ℝ :=
  fun b c h w => o.1 b c h w 1

/-- The real output plane of a CCBAM result. -/
noncomputable def realPlane {B C H W : ℕ}
    (o : (Fin B → Fin C → Fin H → Fin W → Fin 2 → ℝ) × CCBAMState) :
    Fin B → Fin C → Fin H → Fin W → ℝ :=
  fun b c h w => o.1 b c h w 0

/-! ## Self_Attn values (attention.py lines 219–254)

1×1 convolutions `conv_q`, `conv_k` of output width `in_channels // 8` and
`conv_v` of full width; the flattened spatial axis (`view(batch, -1,
freq*time)`) is indexed by `Fin H × Fin W`, which the final
`view(batch, channel, freq, time)` unflattens again.  `energy =
torch.bmm(Q, K)`, `attn = softmax(energy, -1)`, `out = torch.bmm(V,
attn.permute(0, 2, 1))`, `out = self.gamma * out + x`. -/

/-- Parameters of `Self_Attn` for `in_channels = C`: 1×1 convolution
weights and biases (`nn.Conv2d` has a bias by default) and the residual
scalar `gamma`. -/
structure SelfAttnParams (C : ℕ) where
  wq : Fin (C / 8) → Fin C → ℝ
  bq : Fin (C / 8) → ℝ
  wk : Fin (C / 8) → Fin C → ℝ
  bk : Fin (C / 8) → ℝ
  wv : Fin C → Fin C → ℝ
  bv : Fin C → ℝ
  gamma : ℝ

/-- A 1×1 convolution: a channel-mixing affine map at every position. -/
noncomputable def conv1x1 {B C O H W : ℕ} (w : Fin O → Fin C → ℝ)
    (bias : Fin O → ℝ) (x : Fin B → Fin C → Fin H → Fin W → ℝ) :
    Fin B → Fin O → Fin H → Fin W → ℝ :=
  fun b o h v => bias o + ∑ c, w o c * x b c h v

/-- `energy = torch.bmm(Q, K)` (line 245): the inner product over the
`in_channels // 8` query/key channels at flattened positions `n` and `m`. -/
noncomputable def selfAttnEnergy {B C H W : ℕ} (p : SelfAttnParams C)
    (x : Fin B → Fin C → Fin H → Fin W → ℝ) (b : Fin B)
    (n m : Fin H × Fin W) : ℝ :=
  ∑ o, conv1x1 p.wq p.bq x b o n.1 n.2 * conv1x1 p.wk p.bk x b o m.1 m.2

/-- `attn = self.softmax(energy)` (line 246), softmax over the last axis. -/
noncomputable def selfAttnWeights {B C H W : ℕ} (p : SelfAttnParams C)
    (x : Fin B → Fin C → Fin H → Fin W → ℝ) (b : Fin B)
    (n m : Fin H × Fin W) : ℝ :=
  Real.exp (selfAttnEnergy p x b n m) /
    ∑ m2, Real.exp (selfAttnEnergy p x b n m2)

/-- `Self_Attn.forward`'s first output (lines 248–252):
`out = torch.bmm(V, attn.permute(0, 2, 1))` reshaped to the input extent,
then `self.gamma * out + x`. -/
noncomputable def selfAttnOut {B C H W : ℕ} (p : SelfAttnParams C)
    (x : Fin B → Fin C → Fin H → Fin W → ℝ) :
    Fin B → Fin C → Fin H → Fin W → ℝ :=
  fun b c h w =>
    p.gamma *
        (∑ m, conv1x1 p.wv p.bv x b c m.1 m.2 * selfAttnWeights p x b (h, w) m) +
      x b c h w

/-- `Self_Attn.__init__` (lines 221–231): the convolution weights come from
the default initialiser, `self.gamma = nn.Parameter(torch.zeros(1))`. -/
noncomputable def selfAttnInit {C : ℕ} (wq : Fin (C / 8) → Fin C → ℝ)
    (bq : Fin (C / 8) → ℝ) (wk : Fin (C / 8) → Fin C → ℝ)
    (bk : Fin (C / 8) → ℝ) (wv : Fin C → Fin C → ℝ) (bv : Fin C → ℝ) :
    SelfAttnParams C :=
  ⟨wq, bq, wk, bk, wv, bv, 0⟩

/-! ## Concrete fixtures

Closed inputs used by counterexamples and witnesses. -/

/-- An all-zero SpatialGate parameter set (BatchNorm affine included). -/
noncomputable def sgParamsZero : SpatialGateParams :=
  ⟨fun _ _ _ _ => 0, ⟨fun _ => 1, fun _ => 0⟩⟩

/-- Freshly initialised BatchNorm running statistics:
`running_mean = 0`, `running_var = 1` (the PyTorch defaults). -/
noncomputable def bnStateFresh : BatchNorm2dState 1 :=
  ⟨fun _ => 0, fun _ => 1⟩

/-- A zero `[1, 1, 1, 2]` feature map. -/
noncomputable def zeroInput112 : Fin 1 → Fin 1 → Fin 1 → Fin 2 → ℝ :=
  fun _ _ _ _ => 0

/-- A zero `[1, 1, 1]` query tensor. -/
noncomputable def qZero111 : Fin 1 → Fin 1 → Fin 1 → ℝ := fun _ _ _ => 0

/-- A zero `[1, 2, 1]` key/value tensor. -/
noncomputable def kvZero121 : Fin 1 → Fin 2 → Fin 1 → ℝ := fun _ _ _ => 0

/-- A `[1, 1, 2]` mask that is true at key 0 and false at key 1. -/
def maskFirstKey : Option (Fin 1 → Fin 1 → Fin 2 → Bool) :=
  some fun _ _ j => j == 0

/-- All-zero ChannelGate parameters at width 1, ratio 1. -/
noncomputable def cgParamsZero11 : ChannelGateParams 1 1 :=
  ⟨fun _ _ => 0, fun _ => 0, fun _ _ => 0, fun _ => 0⟩

/-- A zero `[1, 1, 1, 1]` feature map. -/
noncomputable def xZero1111 : Fin 1 → Fin 1 → Fin 1 → Fin 1 → ℝ :=
  fun _ _ _ _ => 0

/-- All-zero CCBAM parameters at width 1, ratio 1. -/
noncomputable def ccbamParamsZero : CCBAMParams 1 1 :=
  ⟨cgParamsZero11, cgParamsZero11, sgParamsZero, sgParamsZero⟩

/-- Freshly initialised CCBAM state (both BatchNorm buffers fresh). -/
noncomputable def ccbamStateFresh : CCBAMState := ⟨bnStateFresh, bnStateFresh⟩

/-- A zero `[1, 1, 1, 1, 2]` complex feature map. -/
noncomputable def zZero11112 : Fin 1 → Fin 1 → Fin 1 → Fin 1 → Fin 2 → ℝ :=
  fun _ _ _ _ _ => 0

/-- All-zero `Self_Attn` parameters at `in_channels = 1` (gamma included). -/
noncomputable def saParamsZero1 : SelfAttnParams 1 :=
  ⟨fun _ _ => 0, fun _ => 0, fun _ _ => 0, fun _ => 0, fun _ _ => 0,
    fun _ => 0, 0⟩

/-- The mask bit at a score position: `false` everywhere when `mask is
None`, otherwise the supplied boolean entry. -/
def sdpaMaskBit {B Lq Lk : ℕ}
    (mask : Option (Fin B → Fin Lq → Fin Lk → Bool))
    (b : Fin B) (i : Fin Lq) (j : Fin Lk) : Bool :=
  match mask with
  | none => false
  | some m => m b i j

/-!
# Theorems
-/

/-- Positivity of `expBot` off `⊥`, nonnegativity everywhere. -/
theorem expBot_nonneg (x : WithBot ℝ) : 0 ≤ expBot x := by
  cases x with
  | bot => simp [expBot]
  | coe a => exact (Real.exp_pos a).le

/-- `expBot` of a real (non-`⊥`) score is positive. -/
theorem expBot_coe_pos (a : ℝ) : 0 < expBot (a : WithBot ℝ) :=
  Real.exp_pos a

/-- C1: for positive key dimension, `ScaledDotProductAttention.forward`
computes scores as `Q·Kᵗ / sqrt(D)`, overwrites mask-true scores with `-∞`
before the row softmax, and returns the context as the attention-weighted
sum of value rows; with dropout inactive the attention weights are
non-negative, each query row with at least one unmasked key sums to 1, and
masked positions there receive zero weight. -/
theorem sdpa_forward_spec (B Lq Lk D Dv : ℕ) (hD : 0 < D)
    (Q : Fin B → Fin Lq → Fin D → ℝ) (K : Fin B → Fin Lk → Fin D → ℝ)
    (V : Fin B → Fin Lk → Fin Dv → ℝ)
    (mask : Option (Fin B → Fin Lq → Fin Lk → Bool)) :
    (∀ b i j, sdpaScore D Q K b i j =
        (∑ d, Q b i d * K b j d) / Real.sqrt D) ∧
    (∀ b i j, 0 ≤ sdpaAttn D Q K mask b i j) ∧
    (∀ b i, (∃ j, sdpaMaskBit mask b i j = false) →
        ∑ j, sdpaAttn D Q K mask b i j = 1) ∧
    (∀ b i j, (∃ j0, sdpaMaskBit mask b i j0 = false) →
        sdpaMaskBit mask b i j = true → sdpaAttn D Q K mask b i j = 0) ∧
    (∀ b i e, sdpaContext D Q K V mask b i e =
        ∑ j, sdpaAttn D Q K mask b i j * V b j e) := by
  refine ⟨fun b i j => rfl, ?_, ?_, ?_, fun b i e => rfl⟩
  · intro b i j
    exact div_nonneg (expBot_nonneg _)
      (Finset.sum_nonneg fun k _ => expBot_nonneg _)
  · intro b i hlive
    obtain ⟨j0, hj0⟩ := hlive
    have hpos : 0 < expBot (sdpaMaskedScore D Q K mask b i j0) := by
      cases mask with
      | none => exact expBot_coe_pos _
      | some m =>
        simp only [sdpaMaskBit] at hj0
        simp only [sdpaMaskedScore, hj0, Bool.false_eq_true, if_false]
        exact expBot_coe_pos _
    have hT : 0 < ∑ k, expBot (sdpaMaskedScore D Q K mask b i k) :=
      lt_of_lt_of_le hpos
        (Finset.single_le_sum (fun k _ => expBot_nonneg _)
          (Finset.mem_univ j0))
    simp only [sdpaAttn, softmaxRow]
    rw [← Finset.sum_div, div_self hT.ne']
  · intro b i j _ hmasked
    cases mask with
    | none => simp [sdpaMaskBit] at hmasked
    | some m =>
      simp only [sdpaMaskBit] at hmasked
      simp only [sdpaAttn, softmaxRow, sdpaMaskedScore, hmasked, if_true]
      simp [expBot]

/-- C1 witness: the theorem at `B = Lq = D = Dv = 1`, `Lk = 2`, zero
tensors, and a mask that is true at key 0 and false at key 1. -/
theorem sdpa_forward_spec_witness :
    0 < 1 ∧
      ((∀ b i j, sdpaScore 1 qZero111 kvZero121 b i j =
          (∑ d, qZero111 b i d * kvZero121 b j d) / Real.sqrt ((1 : ℕ) : ℝ)) ∧
      (∀ b i j, 0 ≤ sdpaAttn 1 qZero111 kvZero121 maskFirstKey b i j) ∧
      (∀ b i, (∃ j, sdpaMaskBit maskFirstKey b i j = false) →
          ∑ j, sdpaAttn 1 qZero111 kvZero121 maskFirstKey b i j = 1) ∧
      (∀ b i j, (∃ j0, sdpaMaskBit maskFirstKey b i j0 = false) →
          sdpaMaskBit maskFirstKey b i j = true →
          sdpaAttn 1 qZero111 kvZero121 maskFirstKey b i j = 0) ∧
      (∀ b i e, sdpaContext 1 qZero111 kvZero121 kvZero121 maskFirstKey b i e =
          ∑ j, sdpaAttn 1 qZero111 kvZero121 maskFirstKey b i j *
            kvZero121 b j e)) :=
  ⟨Nat.one_pos,
    sdpa_forward_spec 1 1 2 1 1 Nat.one_pos qZero111 kvZero121 kvZero121
      maskFirstKey⟩

/-- `view` with known-dimension product `k ≠ 0` infers `L` from `k * L`
elements. -/
theorem viewInfer_mul (k L : ℕ) (hk : k ≠ 0) : viewInfer (k * L) k = some L := by
  unfold viewInfer
  simp [hk, Nat.mul_mod_right, Nat.mul_div_cancel_left L (Nat.pos_of_ne_zero hk)]

/-- C2: for any head count dividing a positive `d_model` and positive
batch, `MultiHeadAttention.forward` yields context shape `[B, Lq, d_model]`
and attention-weight shape `[B·n_heads, Lq, Lk]`; in particular the
`d_model = 512, n_heads = 8`, length-10, batch-4 scenario yields shapes
`[4, 10, 512]` and `[32, 10, 10]`. -/
theorem mha_shapes_spec (B Lq Lk d h : ℕ) (hB : 0 < B) (hd : 0 < d)
    (hdvd : h ∣ d) :
    mhaShapes B Lq Lk d h = some ((B, Lq, d), (B * h, Lq, Lk)) ∧
      mhaShapes 4 10 10 512 8 = some ((4, 10, 512), (32, 10, 10)) := by
  refine ⟨?_, by decide⟩
  have hh : h ≠ 0 := by
    rintro rfl
    rw [Nat.zero_dvd] at hdvd
    omega
  have hmul : h * (d / h) = d := Nat.mul_div_cancel' hdvd
  have had : d / h ≠ 0 := by
    intro h0
    rw [h0, Nat.mul_zero] at hmul
    omega
  have hB' : B ≠ 0 := hB.ne'
  have hk1 : B * h * (d / h) ≠ 0 := by positivity
  have hk2 : h * B * (d / h) ≠ 0 := by positivity
  have hk3 : B * (h * (d / h)) ≠ 0 := by positivity
  have hk4 : B * d ≠ 0 := by positivity
  have e1 : ∀ L, B * L * (d / h * h) = B * h * (d / h) * L := fun L => by ring
  have e2 : ∀ L, h * B * L * (d / h) = B * h * (d / h) * L := fun L => by ring
  have e3 : ∀ L, B * h * L * (d / h) = h * B * (d / h) * L := fun L => by ring
  have e4 : ∀ L, B * L * h * (d / h) = B * (h * (d / h)) * L := fun L => by ring
  unfold mhaShapes
  simp only [e1, e2, e3, e4, viewInfer_mul _ _ hk1, viewInfer_mul _ _ hk2,
    viewInfer_mul _ _ hk3, Option.some_bind, if_pos rfl, hmul,
    viewInfer_mul _ _ hk4]
  simp

/-- C2 witness: the theorem's hypotheses and conclusion at the concrete
scenario `B = 4, Lq = Lk = 10, d_model = 512, n_heads = 8`. -/
theorem mha_shapes_spec_witness :
    (0 < 4 ∧ 0 < 512 ∧ (8 : ℕ) ∣ 512) ∧
      (mhaShapes 4 10 10 512 8 = some ((4, 10, 512), (4 * 8, 10, 10)) ∧
        mhaShapes 4 10 10 512 8 = some ((4, 10, 512), (32, 10, 10))) :=
  ⟨⟨by decide, by decide, by decide⟩,
    mha_shapes_spec 4 10 10 512 8 (by decide) (by decide) (by decide)⟩

/-- Broadcasting two equal extents. -/
theorem broadcastDim_self (a : ℕ) : broadcastDim a a = some a := by
  simp [broadcastDim]

/-- Broadcasting against a size-1 extent. -/
theorem broadcastDim_one_right (a : ℕ) : broadcastDim a 1 = some a := by
  unfold broadcastDim
  rcases eq_or_ne a 1 with rfl | h
  · simp
  · simp [h]

/-- The `SpatialGate` convolution (`kernel 7, padding 3, stride 1`)
preserves any positive extent. -/
theorem conv2dOut_same7 (n : ℕ) (hn : 0 < n) : conv2dOut n 7 3 1 = some n := by
  unfold conv2dOut
  have hcond : (7 : ℕ) ≠ 0 ∧ (1 : ℕ) ≠ 0 ∧ 7 ≤ n + 2 * 3 :=
    ⟨by omega, by omega, by omega⟩
  rw [if_pos hcond]
  congr 1
  omega

/-- `SpatialGate.forward` preserves positive shapes. -/
theorem spatialGateShape_id (B C H W : ℕ) (hC : 0 < C) (hH : 0 < H)
    (hW : 0 < W) : spatialGateShape B C H W = some (B, C, H, W) := by
  have h1 : channelPoolShape B C H W = some (B, 2, H, W) := by
    simp [channelPoolShape, hC.ne']
  unfold spatialGateShape
  rw [h1]
  simp [conv2dOut_same7 H hH, conv2dOut_same7 W hW, mulShape4,
    broadcastDim_self, broadcastDim_one_right]

/-- `ChannelGate.forward` with the default `{avg, max}` pooling kinds
preserves positive shapes (the gate width equals the channel count). -/
theorem channelGateShape_id (B C H W : ℕ) (hH : 0 < H) (hW : 0 < W) :
    channelGateShape C ["avg", "max"] B C H W = some (B, C, H, W) := by
  unfold channelGateShape
  have hall : (["avg", "max"] : List String).all
      (fun pt => poolFlatWidth pt C H W == some C) = true := by
    simp [poolFlatWidth, hH.ne', hW.ne']
  simp [hall]

/-- C3: `SpatialGate`, `ChannelGate`, `CCBAM` and `Self_Attn` return
feature maps of exactly the input shape for every positive
`B, C, H, W`; the `[2, 32, 259, 120, 2]` map through CCBAM with
`pool_types = {avg, max}` (its shape is reduction-ratio independent)
returns `[2, 32, 259, 120, 2]`. -/
theorem gate_shapes_preserved (B C H W : ℕ) (hB : 0 < B) (hC : 0 < C)
    (hH : 0 < H) (hW : 0 < W) :
    spatialGateShape B C H W = some (B, C, H, W) ∧
    channelGateShape C ["avg", "max"] B C H W = some (B, C, H, W) ∧
    ccbamShape C ["avg", "max"] B C H W = some (B, C, H, W, 2) ∧
    selfAttnShape C B C H W = some (B, C, H, W) ∧
    ccbamShape 32 ["avg", "max"] 2 32 259 120 = some (2, 32, 259, 120, 2) := by
  refine ⟨spatialGateShape_id B C H W hC hH hW,
    channelGateShape_id B C H W hH hW, ?_, ?_, by decide⟩
  · unfold ccbamShape
    rw [channelGateShape_id B C H W hH hW]
    simp [spatialGateShape_id B C H W hC hH hW]
  · unfold selfAttnShape
    have hone : ∀ n : ℕ, 0 < n → conv2dOut n 1 0 1 = some n := by
      intro n hn
      unfold conv2dOut
      rw [if_pos ⟨by omega, by omega, by omega⟩]
      congr 1
      omega
    have hk : B * (H * W) ≠ 0 := by positivity
    have hq : viewInfer (B * (C / 8) * H * W) (B * (H * W)) = some (C / 8) := by
      have e : B * (C / 8) * H * W = B * (H * W) * (C / 8) := by ring
      rw [e, viewInfer_mul _ _ hk]
    have hv : viewInfer (B * C * H * W) (B * (H * W)) = some C := by
      have e : B * C * H * W = B * (H * W) * C := by ring
      rw [e, viewInfer_mul _ _ hk]
    have hg : B * C * (H * W) = B * C * H * W := by ring
    simp [hone H hH, hone W hW, hq, hv, hg]

/-- C3 witness: the theorem at `B = C = H = W = 1` (the concrete CCBAM
scenario is a closed conjunct of the conclusion). -/
theorem gate_shapes_preserved_witness :
    (0 < 1) ∧
      (spatialGateShape 1 1 1 1 = some (1, 1, 1, 1) ∧
      channelGateShape 1 ["avg", "max"] 1 1 1 1 = some (1, 1, 1, 1) ∧
      ccbamShape 1 ["avg", "max"] 1 1 1 1 = some (1, 1, 1, 1, 2) ∧
      selfAttnShape 1 1 1 1 1 = some (1, 1, 1, 1) ∧
      ccbamShape 32 ["avg", "max"] 2 32 259 120 = some (2, 32, 259, 120, 2)) :=
  ⟨Nat.one_pos,
    gate_shapes_preserved 1 1 1 1 Nat.one_pos Nat.one_pos Nat.one_pos
      Nat.one_pos⟩

/-- Every recognised pooling kind produces a raw signal. -/
theorem channelAttRaw_isSome {B C H W r : ℕ} [NeZero H] [NeZero W]
    (pt : String) (p : ChannelGateParams C r)
    (x : Fin B → Fin C → Fin H → Fin W → ℝ) (hv : PoolKindValid pt) :
    (channelAttRaw pt p x).isSome := by
  rcases hv with h | h | h | h <;> subst h <;> simp [channelAttRaw]

/-- The `ChannelGate` pooling loop over recognised kinds, started with an
already-populated accumulator, adds one raw signal per listed kind. -/
theorem channelGateLoop_acc {B C H W r : ℕ} [NeZero H] [NeZero W]
    (p : ChannelGateParams C r) (x : Fin B → Fin C → Fin H → Fin W → ℝ) :
    ∀ (l : List String), (∀ pt ∈ l, PoolKindValid pt) →
      ∀ (lr : Option (Fin B → Fin C → ℝ)) (s : Fin B → Fin C → ℝ),
      channelGateLoop p x l lr (some s) =
        some (some (fun b c => s b c +
          (l.map (fun pt =>
            ((channelAttRaw pt p x).getD (fun _ _ => 0)) b c)).sum))
  | [], _, lr, s => by
      simp only [channelGateLoop, List.map_nil, List.sum_nil]
      refine congrArg _ (congrArg _ ?_)
      funext b c
      rw [add_zero]
  | pt :: rest, hv, lr, s => by
      obtain ⟨raw, heq⟩ := Option.isSome_iff_exists.mp
        (channelAttRaw_isSome pt p x (hv pt (List.mem_cons_self _ _)))
      simp only [channelGateLoop, heq, Option.or]
      rw [channelGateLoop_acc p x rest
        (fun q hq => hv q (List.mem_cons_of_mem _ hq)) (some raw)
        (fun b c => s b c + raw b c)]
      refine congrArg _ (congrArg _ ?_)
      funext b c
      simp only [List.map_cons, List.sum_cons, heq, Option.getD_some]
      ring

/-- `ChannelGate.forward` on a nonempty list of recognised pooling kinds
computes exactly the specification's sum-then-sigmoid gate. -/
theorem channelGateForward_eq_spec {B C H W r : ℕ} [NeZero H] [NeZero W]
    (pools : List String) (hne : pools ≠ [])
    (hv : ∀ pt ∈ pools, PoolKindValid pt) (p : ChannelGateParams C r)
    (x : Fin B → Fin C → Fin H → Fin W → ℝ) :
    channelGateForward pools p x = some (channelGateSpec pools p x) := by
  cases pools with
  | nil => exact absurd rfl hne
  | cons pt rest =>
    obtain ⟨raw, heq⟩ := Option.isSome_iff_exists.mp
      (channelAttRaw_isSome pt p x (hv pt (List.mem_cons_self _ _)))
    unfold channelGateForward
    simp only [channelGateLoop, heq, Option.or]
    rw [channelGateLoop_acc p x rest
      (fun q hq => hv q (List.mem_cons_of_mem _ hq)) (some raw) raw]
    unfold channelGateSpec
    exact congrArg some (by
      funext b c h w
      simp only [List.map_cons, List.sum_cons, heq, Option.getD_some])

/-- C4: `ChannelGate.forward` pools the spatial extent once per configured
kind, sends each pooled vector through the shared two-layer bottleneck MLP,
sums the raw per-kind signals by elementwise addition, applies the logistic
sigmoid (whose value always lies in `(0,1)`), and multiplies the broadcast
gate into the input — i.e. it equals the specification-side closed form. -/
theorem channelGate_forward_spec (B C H W r : ℕ) [NeZero H] [NeZero W]
    (pools : List String) (hne : pools ≠ [])
    (hv : ∀ pt ∈ pools, PoolKindValid pt) (p : ChannelGateParams C r)
    (x : Fin B → Fin C → Fin H → Fin W → ℝ) :
    channelGateForward pools p x = some (channelGateSpec pools p x) ∧
      ∀ y : ℝ, 0 < sigmoid y ∧ sigmoid y < 1 := by
  refine ⟨channelGateForward_eq_spec pools hne hv p x, fun y => ?_⟩
  have hexp : 0 < Real.exp (-y) := Real.exp_pos _
  unfold sigmoid
  constructor
  · exact div_pos one_pos (by linarith)
  · rw [div_lt_one (by linarith)]
    linarith

/-- C4 witness: the theorem at `pool_types = ["avg"]`, unit dimensions,
zero parameters and zero input. -/
theorem channelGate_forward_spec_witness :
    ((["avg"] : List String) ≠ [] ∧ ∀ pt ∈ (["avg"] : List String), PoolKindValid pt) ∧
      (channelGateForward ["avg"] cgParamsZero11 xZero1111 =
          some (channelGateSpec ["avg"] cgParamsZero11 xZero1111) ∧
        ∀ y : ℝ, 0 < sigmoid y ∧ sigmoid y < 1) :=
  ⟨⟨by decide, by decide⟩,
    channelGate_forward_spec 1 1 1 1 1 ["avg"] (by decide) (by decide)
      cgParamsZero11 xZero1111⟩

/-- C5: the imaginary output plane of `CCBAM.forward` depends only on the
imaginary input plane, the imaginary-side parameters (`cgImag`, `sgImag`)
and the imaginary-side BatchNorm state — never on the real plane or the
real-side parameters — and symmetrically for the real output plane;
consequently an all-zero imaginary input plane yields an all-zero
imaginary output plane, independent of the real-plane values. -/
theorem ccbam_plane_separable (B C H W r : ℕ) [NeZero C] [NeZero H]
    [NeZero W] (training noSpatial : Bool) (pools : List String)
    (hne : pools ≠ []) (hv : ∀ pt ∈ pools, PoolKindValid pt)
    (p q : CCBAMParams C r) (st1 st2 : CCBAMState)
    (x y : Fin B → Fin C → Fin H → Fin W → Fin 2 → ℝ) :
    (p.cgImag = q.cgImag → p.sgImag = q.sgImag → st1.bnImag = st2.bnImag →
      (∀ b c h w, x b c h w 1 = y b c h w 1) →
      (ccbamForward training noSpatial pools p st1 x).map imagPlane =
        (ccbamForward training noSpatial pools q st2 y).map imagPlane) ∧
    (p.cgReal = q.cgReal → p.sgReal = q.sgReal → st1.bnReal = st2.bnReal →
      (∀ b c h w, x b c h w 0 = y b c h w 0) →
      (ccbamForward training noSpatial pools p st1 x).map realPlane =
        (ccbamForward training noSpatial pools q st2 y).map realPlane) ∧
    ((∀ b c h w, x b c h w 1 = 0) →
      (ccbamForward training noSpatial pools p st1 x).map imagPlane =
        some fun _ _ _ _ => 0) := by
  refine ⟨?_, ?_, ?_⟩
  · intro hpi hsi hbi heq
    have himag : (fun b c h w => x b c h w 1) =
        (fun b c h w => y b c h w 1) := by
      funext b c h w
      exact heq b c h w
    simp only [ccbamForward]
    rw [himag, hpi, hsi, hbi,
      channelGateForward_eq_spec pools hne hv p.cgReal
        (fun b c h w => x b c h w 0),
      channelGateForward_eq_spec pools hne hv q.cgReal
        (fun b c h w => y b c h w 0),
      channelGateForward_eq_spec pools hne hv q.cgImag
        (fun b c h w => y b c h w 1)]
    refine congrArg some ?_
    funext b c h w
    simp only [imagPlane]
    rw [if_neg (by decide : ¬(1 : Fin 2) = 0),
      if_neg (by decide : ¬(1 : Fin 2) = 0)]
  · intro hpr hsr hbr heq
    have hreal : (fun b c h w => x b c h w 0) =
        (fun b c h w => y b c h w 0) := by
      funext b c h w
      exact heq b c h w
    simp only [ccbamForward]
    rw [hreal, hpr, hsr, hbr,
      channelGateForward_eq_spec pools hne hv q.cgReal
        (fun b c h w => y b c h w 0),
      channelGateForward_eq_spec pools hne hv p.cgImag
        (fun b c h w => x b c h w 1),
      channelGateForward_eq_spec pools hne hv q.cgImag
        (fun b c h w => y b c h w 1)]
    refine congrArg some ?_
    funext b c h w
    simp only [realPlane]
    simp
  · intro hz
    simp only [ccbamForward]
    rw [channelGateForward_eq_spec pools hne hv p.cgReal
        (fun b c h w => x b c h w 0),
      channelGateForward_eq_spec pools hne hv p.cgImag
        (fun b c h w => x b c h w 1)]
    refine congrArg some ?_
    funext b c h w
    simp only [imagPlane]
    rw [if_neg (by decide : ¬(1 : Fin 2) = 0)]
    cases noSpatial with
    | true => simp [channelGateSpec, hz]
    | false => simp [spatialGateStep, channelGateSpec, hz]

/-- C5 witness: the theorem in evaluation mode with spatial gating on,
`pool_types = ["avg"]`, unit dimensions, zero parameters, fresh states and
the zero complex map for both inputs. -/
theorem ccbam_plane_separable_witness :
    ((["avg"] : List String) ≠ [] ∧
        ∀ pt ∈ (["avg"] : List String), PoolKindValid pt) ∧
      ((ccbamParamsZero.cgImag = ccbamParamsZero.cgImag →
        ccbamParamsZero.sgImag = ccbamParamsZero.sgImag →
        ccbamStateFresh.bnImag = ccbamStateFresh.bnImag →
        (∀ b c h w, zZero11112 b c h w 1 = zZero11112 b c h w 1) →
        (ccbamForward false false ["avg"] ccbamParamsZero ccbamStateFresh
            zZero11112).map imagPlane =
          (ccbamForward false false ["avg"] ccbamParamsZero ccbamStateFresh
            zZero11112).map imagPlane) ∧
      (ccbamParamsZero.cgReal = ccbamParamsZero.cgReal →
        ccbamParamsZero.sgReal = ccbamParamsZero.sgReal →
        ccbamStateFresh.bnReal = ccbamStateFresh.bnReal →
        (∀ b c h w, zZero11112 b c h w 0 = zZero11112 b c h w 0) →
        (ccbamForward false false ["avg"] ccbamParamsZero ccbamStateFresh
            zZero11112).map realPlane =
          (ccbamForward false false ["avg"] ccbamParamsZero ccbamStateFresh
            zZero11112).map realPlane) ∧
      ((∀ b c h w, zZero11112 b c h w 1 = 0) →
        (ccbamForward false false ["avg"] ccbamParamsZero ccbamStateFresh
            zZero11112).map imagPlane =
          some fun _ _ _ _ => 0)) :=
  ⟨⟨by decide, by decide⟩,
    ccbam_plane_separable 1 1 1 1 1 false false ["avg"] (by decide)
      (by decide) ccbamParamsZero ccbamParamsZero ccbamStateFresh
      ccbamStateFresh zZero11112 zZero11112⟩

/-- C6: a freshly constructed `Self_Attn` block (`gamma` initialised to
`torch.zeros(1)`) computes `gamma · attended + input = input`: it is the
identity on every input feature map. -/
theorem selfAttn_init_identity (C : ℕ) (wq : Fin (C / 8) → Fin C → ℝ)
    (bq : Fin (C / 8) → ℝ) (wk : Fin (C / 8) → Fin C → ℝ)
    (bk : Fin (C / 8) → ℝ) (wv : Fin C → Fin C → ℝ) (bv : Fin C → ℝ)
    (B H W : ℕ) (x : Fin B → Fin C → Fin H → Fin W → ℝ) :
    selfAttnOut (selfAttnInit wq bq wk bk wv bv) x = x := by
  funext b c h w
  simp [selfAttnOut, selfAttnInit]

/-- C10: for `in_channels < 8` the query/key 1×1 convolutions have
`in_channels // 8 = 0` output channels, so the similarity matrix is
identically zero and the attention matrix is uniform: every entry equals
`1 / (H·W)`. -/
theorem selfAttn_small_channels_uniform (C : ℕ) (hC : C < 8)
    (p : SelfAttnParams C) (B H W : ℕ)
    (x : Fin B → Fin C → Fin H → Fin W → ℝ) (b : Fin B)
    (n m : Fin H × Fin W) :
    selfAttnEnergy p x b n m = 0 ∧
      selfAttnWeights p x b n m = 1 / ((H * W : ℕ) : ℝ) := by
  have h0 : C / 8 = 0 := Nat.div_eq_of_lt hC
  have hE : ∀ m2 : Fin H × Fin W, selfAttnEnergy p x b n m2 = 0 := by
    intro m2
    unfold selfAttnEnergy
    apply Finset.sum_eq_zero
    intro o _
    have ho : (o : ℕ) < C / 8 := o.2
    omega
  refine ⟨hE m, ?_⟩
  unfold selfAttnWeights
  simp [hE, Finset.card_univ]

/-- C10 witness: the theorem at the default `in_channels = 1`, unit
spatial extent, zero parameters and zero input. -/
theorem selfAttn_small_channels_uniform_witness :
    1 < 8 ∧
      (selfAttnEnergy saParamsZero1 xZero1111 0 (0, 0) (0, 0) = 0 ∧
        selfAttnWeights saParamsZero1 xZero1111 0 (0, 0) (0, 0) =
          1 / ((1 * 1 : ℕ) : ℝ)) :=
  ⟨by decide,
    selfAttn_small_channels_uniform 1 (by decide) saParamsZero1 1 1 1
      xZero1111 0 (0, 0) (0, 0)⟩

/-- C9 counterexample: the claim says no forward pass writes any
block-owned state; a single training-mode `SpatialGate.forward` on a zero
input with zero convolution weights moves the BatchNorm running variance
from its fresh value 1 to 0.99, so the block state differs after the
call. -/
theorem spatialGate_train_mutates_cex :
    (spatialGateStep true sgParamsZero bnStateFresh zeroInput112).2 ≠
      bnStateFresh := by
  intro hEq
  have hconv : conv2dSame7 sgParamsZero.w (channelPool zeroInput112) =
      fun _ _ _ _ => 0 := by
    funext b o h v
    simp [conv2dSame7, sgParamsZero]
  have hvar := congrArg (fun s : BatchNorm2dState 1 => s.var 0) hEq
  simp [spatialGateStep, hconv, batchNorm2d, bnStateFresh] at hvar
  norm_num at hvar

/-- C9 (amended): with batch normalisation in evaluation mode
(`training = false`) no forward pass writes any block-owned state — the
SpatialGate and CCBAM states are returned unchanged; in training mode the
`BatchNorm2d` inside `BasicConv` updates its running statistics (see the
counterexample). -/
theorem forward_eval_preserves_state (B C H W r : ℕ) [NeZero C] [NeZero H]
    [NeZero W] (p : SpatialGateParams) (st : BatchNorm2dState 1)
    (x : Fin B → Fin C → Fin H → Fin W → ℝ) :
    (spatialGateStep false p st x).2 = st ∧
      ∀ (noSpatial : Bool) (pools : List String) (pc : CCBAMParams C r)
        (cst : CCBAMState) (z : Fin B → Fin C → Fin H → Fin W → Fin 2 → ℝ),
        (ccbamForward false noSpatial pools pc cst z).map Prod.snd =
          (ccbamForward false noSpatial pools pc cst z).map fun _ => cst := by
  constructor
  · simp [spatialGateStep, batchNorm2d]
  · intro noSpatial pools pc cst z
    simp only [ccbamForward]
    cases hr : channelGateForward pools pc.cgReal (fun b c h w => z b c h w 0) with
    | none => rfl
    | some ro =>
      cases hi : channelGateForward pools pc.cgImag
          (fun b c h w => z b c h w 1) with
      | none => rfl
      | some io =>
        cases noSpatial <;> simp [spatialGateStep, batchNorm2d]

/-- C9 witness: the amended statement at `B = C = H = 1, W = 2`, zero
parameters, fresh state and zero input. -/
theorem forward_eval_preserves_state_witness :
    (spatialGateStep false sgParamsZero bnStateFresh zeroInput112).2 =
        bnStateFresh ∧
      ∀ (noSpatial : Bool) (pools : List String) (pc : CCBAMParams 1 1)
        (cst : CCBAMState) (z : Fin 1 → Fin 1 → Fin 1 → Fin 2 → Fin 2 → ℝ),
        (ccbamForward false noSpatial pools pc cst z).map Prod.snd =
          (ccbamForward false noSpatial pools pc cst z).map fun _ => cst :=
  forward_eval_preserves_state 1 1 1 2 1 sgParamsZero bnStateFresh
    zeroInput112

/-- C7 counterexample: the claim says construction succeeds whenever
`d_model % n_heads == 0`; at `d_model = 0, n_heads = 0` the remainder is 0,
yet `MultiHeadAttention.__init__` fails — `d_model % n_heads` raises
`ZeroDivisionError` before the assert is even evaluated. -/
theorem mhaInit_zero_heads_cex :
    0 % 0 = 0 ∧ mhaInit 0 0 = Except.error PyError.zeroDivision :=
  ⟨rfl, rfl⟩

/-- C7 (amended): for `n_heads ≥ 1`, construction fails with ConfigError
exactly when `d_model % n_heads ≠ 0`, and otherwise succeeds with per-head
dimension `d_model / n_heads`. -/
theorem mhaInit_spec (d h : ℕ) (hh : 0 < h) :
    (mhaInit d h = Except.error PyError.configError ↔ d % h ≠ 0) ∧
      (d % h = 0 → mhaInit d h = Except.ok (d / h, h)) := by
  unfold mhaInit
  rcases Nat.eq_zero_or_pos (d % h) with hz | hp
  · simp [hz, hh.ne']
  · constructor
    · simp [hh.ne', hp.ne']
    · intro h0; omega

/-- C7 witness: the amended statement at `d_model = 512, n_heads = 8`. -/
theorem mhaInit_spec_witness :
    0 < 8 ∧
      ((mhaInit 512 8 = Except.error PyError.configError ↔ 512 % 8 ≠ 0) ∧
        (512 % 8 = 0 → mhaInit 512 8 = Except.ok (512 / 8, 8))) :=
  ⟨by decide, mhaInit_spec 512 8 (by decide)⟩

/-- C8 counterexample: the claim says `ChannelGate` construction raises
ConfigError when `reduction_ratio` does not divide `gate_channels`; with
`gate_channels = 10, reduction_ratio = 16` construction succeeds and
silently truncates the bottleneck width to `10 // 16 = 0`. -/
theorem channelGateInit_truncates_cex :
    channelGateInit 10 16 = Except.ok (10, 0) ∧ 10 % 16 ≠ 0 :=
  ⟨rfl, by decide⟩

/-- C8 (amended): for any positive `reduction_ratio`, `ChannelGate`
construction always succeeds — it raises nothing and proceeds with the
floor-truncated bottleneck width `gate_channels // reduction_ratio`. -/
theorem channelGateInit_spec (g r : ℕ) (hr : 0 < r) :
    channelGateInit g r = Except.ok (g, g / r) := by
  unfold channelGateInit
  simp [hr.ne']

/-- C8 witness: the amended statement at the counterexample input. -/
theorem channelGateInit_spec_witness :
    0 < 16 ∧ channelGateInit 10 16 = Except.ok (10, 10 / 16) :=
  ⟨by decide, channelGateInit_spec 10 16 (by decide)⟩

end AttentionLib
